import Mathlib

/-!
Shallow embedding of the cache layer of the `shared-redis` repository
(`src/cache.rs`), together with proofs of the specification's claims about
it.  Machine integers are modelled as `Nat` reduced mod 2^32 where the Rust
code uses `u32` arithmetic (inside SHA-256); fallible operations return
`Except String` mirroring `anyhow::Result`; the Redis connection is an
explicit state value threaded through each operation.
-/

namespace SharedRedis

/-- Decidable equality for `Except`, needed to evaluate facade results. -/
instance {ε α : Type} [DecidableEq ε] [DecidableEq α] : DecidableEq (Except ε α) :=
  fun a b =>
    match a, b with
    | Except.ok x, Except.ok y =>
      if h : x = y then isTrue (by rw [h])
      else isFalse (by intro hc; cases hc; exact h rfl)
    | Except.error x, Except.error y =>
      if h : x = y then isTrue (by rw [h])
      else isFalse (by intro hc; cases hc; exact h rfl)
    | Except.ok _, Except.error _ => isFalse (by intro hc; cases hc)
    | Except.error _, Except.ok _ => isFalse (by intro hc; cases hc)

/-! ## SHA-256 (as computed by the `sha2` crate in `generate_cache_key`) -/

/-- Truncate to a 32-bit word. -/
def w32 (n : Nat) : Nat := n % 4294967296

/-- 32-bit addition. -/
def add32 (a b : Nat) : Nat := (a + b) % 4294967296

/-- Rotate a 32-bit word right by `n` (input assumed `< 2^32`). -/
def rotr (n x : Nat) : Nat := (x >>> n) ||| ((x <<< (32 - n)) % 4294967296)

/-- SHA-256 Ch function, in its select form: bit by bit, `x` chooses
between `y` and `z`. -/
def ch (x y z : Nat) : Nat := z ^^^ (x &&& (y ^^^ z))

/-- SHA-256 Maj function, in its xor form: bit by bit, the majority of
`x`, `y`, `z`. -/
def maj (x y z : Nat) : Nat := (x &&& y) ^^^ ((x ^^^ y) &&& z)

/-- SHA-256 big sigma 0. -/
def bsig0 (x : Nat) : Nat := rotr 2 x ^^^ rotr 13 x ^^^ rotr 22 x

/-- SHA-256 big sigma 1. -/
def bsig1 (x : Nat) : Nat := rotr 6 x ^^^ rotr 11 x ^^^ rotr 25 x

/-- SHA-256 small sigma 0. -/
def ssig0 (x : Nat) : Nat := rotr 7 x ^^^ rotr 18 x ^^^ (x >>> 3)

/-- SHA-256 small sigma 1. -/
def ssig1 (x : Nat) : Nat := rotr 17 x ^^^ rotr 19 x ^^^ (x >>> 10)

/-- The 64 SHA-256 round constants of FIPS 180-4 (written in decimal). -/
def K64 : List Nat :=
  [1116352408, 1899447441, 3049323471, 3921009573, 961987163, 1508970993,
   2453635748, 2870763221, 3624381080, 310598401, 607225278, 1426881987,
   1925078388, 2162078206, 2614888103, 3248222580, 3835390401, 4022224774,
   264347078, 604807628, 770255983, 1249150122, 1555081692, 1996064986,
   2554220882, 2821834349, 2952996808, 3210313671, 3336571891, 3584528711,
   113926993, 338241895, 666307205, 773529912, 1294757372, 1396182291,
   1695183700, 1986661051, 2177026350, 2456956037, 2730485921, 2820302411,
   3259730800, 3345764771, 3516065817, 3600352804, 4094571909, 275423344,
   430227734, 506948616, 659060556, 883997877, 958139571, 1322822218,
   1537002063, 1747873779, 1955562222, 2024104815, 2227730452, 2361852424,
   2428436474, 2756734187, 3204031479, 3329325298]

/-- The SHA-256 working state: eight 32-bit words. -/
structure H8 where
  a : Nat
  b : Nat
  c : Nat
  d : Nat
  e : Nat
  f : Nat
  g : Nat
  h : Nat

/-- The SHA-256 initial hash value of FIPS 180-4 (written in decimal). -/
def H0 : H8 :=
  ⟨1779033703, 3144134277, 1013904242, 2773480762,
   1359893119, 2600822924, 528734635, 1541459225⟩

/-- One round of the SHA-256 compression function. -/
def round (st : H8) (k w : Nat) : H8 :=
  let t1 := add32 st.h (add32 (bsig1 st.e) (add32 (ch st.e st.f st.g) (add32 k w)))
  let t2 := add32 (bsig0 st.a) (maj st.a st.b st.c)
  ⟨add32 t1 t2, st.a, st.b, st.c, add32 st.d t1, st.e, st.f, st.g⟩

/-- Extend the message schedule: `acc` holds the words produced so far, most
recent first; `k` more words are appended, then the whole schedule is
returned oldest first. -/
def extend (acc : List Nat) : Nat → List Nat
  | 0 => acc.reverse
  | k + 1 =>
    let wt := add32 (add32 (ssig1 (acc.getD 1 0)) (acc.getD 6 0))
                    (add32 (ssig0 (acc.getD 14 0)) (acc.getD 15 0))
    extend (wt :: acc) k

/-- Pack bytes into big-endian 32-bit words, four bytes per word. -/
def toWords : List Nat → List Nat
  | hi :: m1 :: m2 :: lo :: rest =>
    (((((hi <<< 8) ||| m1) <<< 8 ||| m2) <<< 8) ||| lo) :: toWords rest
  | _ => []

/-- The most significant `k` bytes of `n`, big endian. -/
def beBytes : Nat → Nat → List Nat
  | 0, _ => []
  | k + 1, n => ((n >>> (8 * k)) &&& 255) :: beBytes k n

/-- Compress one 64-byte block into the hash state. -/
def compressBlock (st : H8) (block : List Nat) : H8 :=
  let ws := extend (toWords block).reverse 48
  let t := (K64.zip ws).foldl (fun s p => round s p.1 p.2) st
  ⟨add32 st.a t.a, add32 st.b t.b, add32 st.c t.c, add32 st.d t.d,
   add32 st.e t.e, add32 st.f t.f, add32 st.g t.g, add32 st.h t.h⟩

/-- Split a byte list into 64-byte chunks; the fuel argument only bounds the
recursion depth and any value at least the number of chunks is enough. -/
def chunksGo : Nat → List Nat → List (List Nat)
  | 0, _ => []
  | _, [] => []
  | fuel + 1, b :: l => (b :: l).take 64 :: chunksGo fuel ((b :: l).drop 64)

/-- Split a byte list into 64-byte chunks. -/
def chunks (l : List Nat) : List (List Nat) := chunksGo l.length l

/-- SHA-256 padding for a message of `len` bytes: the byte 0x80, zero fill,
then the bit length as eight big-endian bytes. -/
def shaPad (len : Nat) : List Nat :=
  128 :: List.replicate ((119 - len % 64) % 64) 0 ++ beBytes 8 (8 * len)

/-- SHA-256 of a byte list, producing the 32 digest bytes. -/
def sha256 (msg : List Nat) : List Nat :=
  let final := (chunks (msg ++ shaPad msg.length)).foldl compressBlock H0
  beBytes 4 final.a ++ beBytes 4 final.b ++ beBytes 4 final.c ++ beBytes 4 final.d ++
  beBytes 4 final.e ++ beBytes 4 final.f ++ beBytes 4 final.g ++ beBytes 4 final.h

/-! ## Hex encoding (the `hex` crate's lowercase alphabet) -/

/-- The lowercase hex alphabet used by `hex::encode`. -/
def hexAlphabet : List Char := "0123456789abcdef".data

/-- A single lowercase hex digit. -/
def hexDigit (n : Nat) : Char :=
  if n < 10 then Char.ofNat (48 + n) else Char.ofNat (87 + n)

/-- The two hex characters of one byte. -/
def hexByte (b : Nat) : List Char := [hexDigit (b / 16), hexDigit (b % 16)]

/-- The character list of the hex encoding of a byte list. -/
def hexChars : List Nat → List Char
  | [] => []
  | b :: bs => hexByte b ++ hexChars bs

/-- Lowercase hex encoding of a byte list, as `hex::encode` produces it. -/
def hexEncode (bs : List Nat) : String := ⟨hexChars bs⟩

/-! ## UTF-8 bytes of a string -/

/-- The UTF-8 encoding of one character. -/
def encodeChar (c : Char) : List Nat :=
  let n := c.toNat
  if n < 128 then [n]
  else if n < 2048 then [192 ||| (n >>> 6), 128 ||| (n &&& 63)]
  else if n < 65536 then
    [224 ||| (n >>> 12), 128 ||| ((n >>> 6) &&& 63), 128 ||| (n &&& 63)]
  else
    [240 ||| (n >>> 18), 128 ||| ((n >>> 12) &&& 63),
     128 ||| ((n >>> 6) &&& 63), 128 ||| (n &&& 63)]

/-- The UTF-8 bytes of a string (`str::as_bytes` in the Rust code). -/
def strBytes (s : String) : List Nat := s.data.flatMap encodeChar

/-! ## Key derivation (`CacheManager::generate_cache_key`)

The Rust function is generic over `T: Serialize`; the serializer is passed
here explicitly as a function `ρ → Except String String` standing for
`serde_json::to_string`. -/

/-- Embedding of `CacheManager::generate_cache_key`: serialize the request,
hash the serialization's UTF-8 bytes with SHA-256, hex-encode, and join with
the prefix by a colon; a serialization error propagates. -/
def generate_cache_key {ρ : Type} (ser : ρ → Except String String)
    (pfx : String) (request_data : ρ) : Except String String :=
  match ser request_data with
  | Except.error e => Except.error e
  | Except.ok s => Except.ok (pfx ++ ":" ++ hexEncode (sha256 (strBytes s)))

/-! ## The Redis store and connection model

The backing store is an association list of entries `(key, value, expiresAt)`
with a current time `now` passed to each command; an entry is live when
`now < expiresAt`.  Network-level command failures are modelled by a
schedule of booleans carried in the connection: each command consumes the
head flag (absence of a flag means success), a `true` flag makes that
command fail.  This reproduces the `redis` crate's behaviour as observed by
`cache.rs`: `GET` of an absent key surfaces as a nil-conversion error,
`SET EX` returns unit or an error, `DEL` returns the number of removed keys
or an error, `KEYS` returns the matching keys or an error. -/

/-- The backing store: entries `(key, value, expiresAt)`. -/
def Store : Type := List (String × String × Nat)

/-- Look up a live entry: the value stored at `k`, when present and not
expired at time `now`. -/
def storeGet : Store → Nat → String → Option String
  | [], _, _ => none
  | e :: st, now, k =>
    if e.1 = k then (if now < e.2.2 then some e.2.1 else none)
    else storeGet st now k

/-- Physically remove the entry at `k`. -/
def storeKill : Store → String → Store
  | [], _ => []
  | e :: st, k => if e.1 = k then storeKill st k else e :: storeKill st k

/-- A `SET EX` write: replaces any entry at `k` with value `v` expiring at
`now + ttl`. -/
def storeSet (st : Store) (now : Nat) (k v : String) (ttl : Nat) : Store :=
  (k, v, now + ttl) :: storeKill st k

/-- Redis glob matching, fuelled: every recursion shortens the combined
length of pattern and subject, so any fuel above that sum is enough. -/
def globMatchGo : Nat → List Char → List Char → Bool
  | 0, _, _ => false
  | _ + 1, [], [] => true
  | fuel + 1, '*' :: ps, [] => globMatchGo fuel ps []
  | fuel + 1, '*' :: ps, c :: cs =>
    globMatchGo fuel ps (c :: cs) || globMatchGo fuel ('*' :: ps) cs
  | fuel + 1, '?' :: ps, _ :: cs => globMatchGo fuel ps cs
  | fuel + 1, p :: ps, c :: cs => (p == c) && globMatchGo fuel ps cs
  | _ + 1, _ :: _, [] => false
  | _ + 1, [], _ :: _ => false

/-- Redis glob matching over character lists: `*` matches any run, `?` any
one character, anything else itself. -/
def globMatch (ps cs : List Char) : Bool :=
  globMatchGo (ps.length + cs.length + 1) ps cs

/-- The `KEYS pattern` command's view of the store: keys of live entries
matching the glob pattern, in store order. -/
def storeKeys : Store → Nat → String → List String
  | [], _, _ => []
  | e :: st, now, pat =>
    if now < e.2.2 ∧ globMatch pat.data e.1.data = true then
      e.1 :: storeKeys st now pat
    else storeKeys st now pat

/-- A live connection: the store it talks to plus the schedule of pending
network failures. -/
structure Conn where
  store : Store
  failures : List Bool

/-- Consume the next failure flag (no flag means the command succeeds). -/
def popFail (c : Conn) : Bool × Conn :=
  (c.failures.headD false, ⟨c.store, c.failures.tail⟩)

/-- Result of `conn.get::<&str, String>`: the value, a nil-conversion error
for an absent key, or any other error. -/
inductive RGet where
  | ok (s : String)
  | errNil
  | errOther

/-- The `GET` command as `cache.rs` sees it. -/
def cmdGet (c : Conn) (now : Nat) (k : String) : RGet × Conn :=
  let (f, c1) := popFail c
  if f then (RGet.errOther, c1)
  else
    match storeGet c1.store now k with
    | some v => (RGet.ok v, c1)
    | none => (RGet.errNil, c1)

/-- The `SET EX` command: `true` on success, `false` on a network error. -/
def cmdSetEx (c : Conn) (now : Nat) (k v : String) (ttl : Nat) : Bool × Conn :=
  let (f, c1) := popFail c
  if f then (false, c1)
  else (true, ⟨storeSet c1.store now k v ttl, c1.failures⟩)

/-- The `DEL` command: the number of removed keys, or `none` on error. -/
def cmdDel (c : Conn) (now : Nat) (k : String) : Option Nat × Conn :=
  let (f, c1) := popFail c
  if f then (none, c1)
  else
    let cnt := if (storeGet c1.store now k).isSome then 1 else 0
    (some cnt, ⟨storeKill c1.store k, c1.failures⟩)

/-- The `KEYS` command: the matching keys, or `none` on error. -/
def cmdKeys (c : Conn) (now : Nat) (pat : String) : Option (List String) × Conn :=
  let (f, c1) := popFail c
  if f then (none, c1)
  else (some (storeKeys c1.store now pat), c1)

/-! ## The cache facade (`CacheManager`)

`CacheManager` holds `conn : Option<AsyncConnManager>`; here the manager is
the `Option Conn` itself, and each method returns its result together with
the updated manager.  `serde` serializers and deserializers for the generic
payload types are passed as explicit functions. -/

/-- Embedding of `CachedResponse<T>`: payload, write timestamp, cache key. -/
structure CachedResponse (α : Type) where
  data : α
  cached_at : Nat
  cache_key : String
deriving DecidableEq

/-- Embedding of `CachedResponse::new` at time `now`. -/
def CachedResponse.new {α : Type} (data : α) (now : Nat) (cache_key : String) :
    CachedResponse α :=
  ⟨data, now, cache_key⟩

/-- Embedding of `CacheManager::get`: with no connection, an immediate miss;
otherwise fetch, and on a successful fetch deserialize, deleting the key and
returning a miss when deserialization fails; fetch errors (nil or other)
are converted to a miss.  Every branch returns `Except.ok`. -/
def cmGet {α : Type} (deser : String → Option (CachedResponse α))
    (m : Option Conn) (now : Nat) (key : String) :
    Except String (Option (CachedResponse α)) × Option Conn :=
  match m with
  | some c =>
    match cmdGet c now key with
    | (RGet.ok cached_data, c1) =>
      match deser cached_data with
      | some response => (Except.ok (some response), some c1)
      | none =>
        let (_, c2) := cmdDel c1 now key
        (Except.ok none, some c2)
    | (RGet.errNil, c1) => (Except.ok none, some c1)
    | (RGet.errOther, c1) => (Except.ok none, some c1)
  | none => (Except.ok none, none)

/-- Embedding of `CacheManager::set`: with no connection, `Ok(false)` with
no serialization attempt; otherwise serialize (propagating a serialization
error), then `SET EX` with the configured `ttl`, returning `Ok(true)` on a
successful write and `Ok(false)` on a store error. -/
def cmSet {α : Type} (ser : CachedResponse α → Except String String)
    (m : Option Conn) (now ttl : Nat) (key : String) (d : CachedResponse α) :
    Except String Bool × Option Conn :=
  match m with
  | some c =>
    match ser d with
    | Except.error e => (Except.error e, some c)
    | Except.ok serialized =>
      match cmdSetEx c now key serialized ttl with
      | (true, c1) => (Except.ok true, some c1)
      | (false, c1) => (Except.ok false, some c1)
  | none => (Except.ok false, none)

/-- Embedding of `CacheManager::delete`: `Ok(count > 0)` on a successful
`DEL`, `Ok(false)` on a store error or with no connection. -/
def cmDelete (m : Option Conn) (now : Nat) (key : String) :
    Except String Bool × Option Conn :=
  match m with
  | some c =>
    match cmdDel c now key with
    | (some deleted_count, c1) => (Except.ok (deleted_count > 0), some c1)
    | (none, c1) => (Except.ok false, some c1)
  | none => (Except.ok false, none)

/-- Embedding of `CacheManager::cache_response`: derive the key, build the
envelope stamped `now`, attempt `set` (propagating only its serialization
error), and return the envelope whatever the write outcome was. -/
def cmCacheResponse {ρ α : Type} (serReq : ρ → Except String String)
    (serEnv : CachedResponse α → Except String String)
    (m : Option Conn) (now ttl : Nat) (cache_pfx : String)
    (request_data : ρ) (response_data : α) :
    Except String (CachedResponse α) × Option Conn :=
  match generate_cache_key serReq cache_pfx request_data with
  | Except.error e => (Except.error e, m)
  | Except.ok cache_key =>
    let cached_response := CachedResponse.new response_data now cache_key
    match cmSet serEnv m now ttl cache_key cached_response with
    | (Except.error e, m1) => (Except.error e, m1)
    | (Except.ok _, m1) => (Except.ok cached_response, m1)

/-- The deletion loop of `CacheManager::clear_pattern`: `DEL` each key,
adding each successful command's count, ignoring failed ones. -/
def delLoop (now : Nat) : Conn → List String → Nat → Nat × Conn
  | c, [], acc => (acc, c)
  | c, k :: ks, acc =>
    match cmdDel c now k with
    | (some count, c1) => delLoop now c1 ks (acc + count)
    | (none, c1) => delLoop now c1 ks acc

/-- Embedding of `CacheManager::clear_pattern`: list the keys matching the
pattern (an errored `KEYS` yields the empty list, per `unwrap_or_default`),
delete each individually, and return the accumulated count; `Ok(0)` with no
connection. -/
def cmClearPattern (m : Option Conn) (now : Nat) (pat : String) :
    Except String Nat × Option Conn :=
  match m with
  | some c =>
    match cmdKeys c now pat with
    | (keysOpt, c1) =>
      match delLoop now c1 (keysOpt.getD []) 0 with
      | (deleted_count, c2) => (Except.ok deleted_count, some c2)
  | none => (Except.ok 0, none)

/-! ## JSON values and `serde_json` serialization

`generate_cache_key` is generic over `T: Serialize`; a request whose fields
can appear in either order (a struct, or an order-preserving map) serializes
through `serde_json` in the order its `Serialize` implementation emits the
fields.  `Json` models such a request: an object is an ordered field list,
and `jsonStr` is `serde_json::to_string`'s compact output. -/

/-- An in-memory JSON value; object fields keep their emission order. -/
inductive Json where
  | null
  | bool (b : Bool)
  | num (n : Int)
  | str (s : String)
  | arr (elems : List Json)
  | obj (fields : List (String × Json))

/-- One character of a JSON string, escaped the way `serde_json` does. -/
def escChar (c : Char) : String :=
  if c = '"' then "\\\""
  else if c = '\\' then "\\\\"
  else if c = '\x08' then "\\b"
  else if c = '\x09' then "\\t"
  else if c = '\x0a' then "\\n"
  else if c = '\x0c' then "\\f"
  else if c = '\x0d' then "\\r"
  else if c.toNat < 32 then "\\u00" ++ String.mk (hexByte c.toNat)
  else String.singleton c

/-- A JSON string body, escaped the way `serde_json` does. -/
def escapeString (s : String) : String := String.join (s.data.map escChar)

mutual

/-- Compact `serde_json::to_string` output of a JSON value. -/
def jsonStr : Json → String
  | Json.null => "null"
  | Json.bool true => "true"
  | Json.bool false => "false"
  | Json.num n => toString n
  | Json.str s => "\"" ++ escapeString s ++ "\""
  | Json.arr xs => "[" ++ jsonStrElems xs ++ "]"
  | Json.obj fs => "\x7b" ++ jsonStrFields fs ++ "\x7d"

/-- Comma-separated serialization of array elements. -/
def jsonStrElems : List Json → String
  | [] => ""
  | [x] => jsonStr x
  | x :: y :: rest => jsonStr x ++ "," ++ jsonStrElems (y :: rest)

/-- Comma-separated serialization of object fields, in emission order. -/
def jsonStrFields : List (String × Json) → String
  | [] => ""
  | [(k, v)] => "\"" ++ escapeString k ++ "\":" ++ jsonStr v
  | (k, v) :: kv :: rest =>
    "\"" ++ escapeString k ++ "\":" ++ jsonStr v ++ "," ++ jsonStrFields (kv :: rest)

end

/-- `serde_json::to_string` on an in-memory JSON value always succeeds. -/
def serdeToString (j : Json) : Except String String := Except.ok (jsonStr j)

/-- The first `n` failure flags of a schedule, padding with `false` (a
missing flag means the command succeeds). -/
def takeD : Nat → List Bool → List Bool
  | 0, _ => []
  | n + 1, [] => false :: takeD n []
  | n + 1, b :: bs => b :: takeD n bs

/-- A concrete store holding `bulk_0 .. bulk_9` plus one unrelated key, all
live until time 100, for the specification's bulk clearing example. -/
def bulkStore : Store :=
  [("bulk_0", "v", 100), ("bulk_1", "v", 100), ("bulk_2", "v", 100),
   ("bulk_3", "v", 100), ("bulk_4", "v", 100), ("bulk_5", "v", 100),
   ("bulk_6", "v", 100), ("bulk_7", "v", 100), ("bulk_8", "v", 100),
   ("bulk_9", "v", 100), ("other", "v", 100)]

/-! ## Helper lemmas -/

theorem takeD_succ (n : Nat) (l : List Bool) :
    takeD (n + 1) l = l.headD false :: takeD n l.tail := by
  cases l <;> rfl

theorem beBytes_length (k n : Nat) : (beBytes k n).length = k := by
  induction k generalizing n with
  | zero => rfl
  | succ k ih => simp [beBytes, ih]

theorem beBytes_lt {k n b : Nat} (hb : b ∈ beBytes k n) : b < 256 := by
  induction k generalizing b with
  | zero => simp [beBytes] at hb
  | succ k ih =>
    simp only [beBytes, List.mem_cons] at hb
    rcases hb with h | h
    · have := Nat.and_le_right (n := n >>> (8 * k)) (m := 255)
      omega
    · exact ih h

theorem sha256_length (msg : List Nat) : (sha256 msg).length = 32 := by
  simp [sha256, beBytes_length]

theorem sha256_lt {msg : List Nat} {b : Nat} (hb : b ∈ sha256 msg) : b < 256 := by
  simp only [sha256, List.mem_append] at hb
  rcases hb with ((((((h | h) | h) | h) | h) | h) | h) | h <;> exact beBytes_lt h

theorem hexChars_length (bs : List Nat) : (hexChars bs).length = 2 * bs.length := by
  induction bs with
  | nil => rfl
  | cons b bs ih =>
    simp [hexChars, hexByte, ih]
    omega

theorem hexEncode_length (bs : List Nat) : (hexEncode bs).length = 2 * bs.length := by
  simpa [hexEncode, String.length] using hexChars_length bs

theorem hexDigit_mem {n : Nat} (h : n < 16) : hexDigit n ∈ hexAlphabet := by
  interval_cases n <;> decide

theorem hexChars_mem {bs : List Nat} (hbs : ∀ b ∈ bs, b < 256) :
    ∀ c ∈ hexChars bs, c ∈ hexAlphabet := by
  induction bs with
  | nil => simp [hexChars]
  | cons b bs ih =>
    intro c hc
    have hb : b < 256 := hbs b (by simp)
    simp only [hexChars, hexByte, List.cons_append, List.nil_append,
      List.mem_cons] at hc
    rcases hc with h | h | h
    · exact h ▸ hexDigit_mem (Nat.div_lt_of_lt_mul (by omega))
    · exact h ▸ hexDigit_mem (Nat.mod_lt _ (by omega))
    · exact ih (fun x hx => hbs x (by simp [hx])) c h

theorem storeGet_storeSet_self (st : Store) (now now2 : Nat) (k v : String)
    (ttl : Nat) :
    storeGet (storeSet st now k v ttl) now2 k =
      if now2 < now + ttl then some v else none := by
  simp [storeSet, storeGet]

theorem storeGet_storeKill_self (st : Store) (now : Nat) (k : String) :
    storeGet (storeKill st k) now k = none := by
  induction st with
  | nil => rfl
  | cons e st ih =>
    by_cases h : e.1 = k
    · simp [storeKill, h, ih]
    · simp [storeKill, storeGet, h, ih]

theorem storeGet_storeKill_ne (st : Store) (now : Nat) (k k0 : String)
    (h : k ≠ k0) : storeGet (storeKill st k0) now k = storeGet st now k := by
  induction st with
  | nil => rfl
  | cons e st ih =>
    by_cases he : e.1 = k0
    · have hek : e.1 ≠ k := by
        intro hc
        exact h (by rw [← hc, he])
      simp [storeKill, he, storeGet, hek, ih, Ne.symm h]
    · by_cases hek : e.1 = k
      · simp [storeKill, he, storeGet, hek, h]
      · simp [storeKill, he, storeGet, hek, ih]

theorem storeGet_none_storeKill (st : Store) (now : Nat) (k k0 : String)
    (h : storeGet st now k = none) :
    storeGet (storeKill st k0) now k = none := by
  by_cases hk : k = k0
  · rw [hk]
    exact storeGet_storeKill_self st now k0
  · rw [storeGet_storeKill_ne st now k k0 hk]
    exact h

/-! ## Claim theorems -/

/-- C1: for every prefix and every request whose serialization succeeds,
`generate_cache_key` succeeds and returns exactly
`prefix ++ ":" ++ hex(sha256(json(request)))`, and the hex digest is 64
lowercase hex characters.  Determinism is immediate: the key is a function
of the prefix and the serialized request alone. -/
theorem generate_cache_key_spec {ρ : Type} (ser : ρ → Except String String)
    (pfx : String) (r : ρ) (s : String) (hser : ser r = Except.ok s) :
    generate_cache_key ser pfx r =
      Except.ok (pfx ++ ":" ++ hexEncode (sha256 (strBytes s))) ∧
    (hexEncode (sha256 (strBytes s))).length = 64 ∧
    ∀ c ∈ (hexEncode (sha256 (strBytes s))).data, c ∈ hexAlphabet := by
  refine ⟨?_, ?_, ?_⟩
  · simp [generate_cache_key, hser]
  · rw [hexEncode_length, sha256_length]
  · intro c hc
    exact hexChars_mem (fun b hb => sha256_lt hb) c hc

/-- Witness for C1: the key for prefix `"user_profile"` and a request
serializing to `"ab"` has the stated form, with a 64-character lowercase hex
digest. -/
theorem generate_cache_key_spec_witness :
    generate_cache_key (fun _ : Unit => Except.ok "ab") "user_profile" () =
      Except.ok ("user_profile:" ++ hexEncode (sha256 (strBytes "ab"))) ∧
    (hexEncode (sha256 (strBytes "ab"))).length = 64 ∧
    ∀ c ∈ (hexEncode (sha256 (strBytes "ab"))).data, c ∈ hexAlphabet :=
  generate_cache_key_spec (fun _ : Unit => Except.ok "ab") "user_profile" () "ab" rfl

/-- C4 (amended): key derivation depends only on the serialized JSON text —
requests with equal serializations get equal keys — but no canonicalization
is applied, so structurally equal requests whose fields serialize in
different orders can get different keys (see the counterexample). -/
theorem generate_cache_key_ser_congr {ρ : Type} (ser : ρ → Except String String)
    (pfx : String) (r1 r2 : ρ) (h : ser r1 = ser r2) :
    generate_cache_key ser pfx r1 = generate_cache_key ser pfx r2 := by
  unfold generate_cache_key
  rw [h]

/-- Witness for C4 (amended): two distinct requests with the same
serialization receive the same key. -/
theorem generate_cache_key_ser_congr_witness :
    generate_cache_key (fun _ : Bool => Except.ok "x") "p" true =
      generate_cache_key (fun _ : Bool => Except.ok "x") "p" false :=
  generate_cache_key_ser_congr (fun _ : Bool => Except.ok "x") "p" true false rfl

/-- C4 counterexample: the objects with fields `x = 1, y = 2` in the two
orders are structurally equal — their field lists are permutations of each
other — yet they produce different cache keys, because `serde_json` emits
fields in order and `generate_cache_key` hashes the uncanonicalized text. -/
theorem generate_cache_key_order_counterexample :
    List.Perm [("y", Json.num 2), ("x", Json.num 1)]
      [("x", Json.num 1), ("y", Json.num 2)] ∧
    generate_cache_key serdeToString "p"
        (Json.obj [("x", Json.num 1), ("y", Json.num 2)]) ≠
      generate_cache_key serdeToString "p"
        (Json.obj [("y", Json.num 2), ("x", Json.num 1)]) :=
  ⟨List.Perm.swap _ _ _, by decide⟩

/-- C5: with no connection, `get` returns `Ok(None)`, `set` returns
`Ok(false)` and `delete` returns `Ok(false)`, for every key, payload and
serializer — no operation errors in the disconnected state. -/
theorem disconnected_degradation {α : Type}
    (deser : String → Option (CachedResponse α))
    (ser : CachedResponse α → Except String String)
    (now ttl : Nat) (k : String) (d : CachedResponse α) :
    cmGet deser none now k = (Except.ok none, none) ∧
    cmSet ser none now ttl k d = (Except.ok false, none) ∧
    cmDelete none now k = (Except.ok false, none) :=
  ⟨rfl, rfl, rfl⟩

/-- C10: a disconnected `set` never runs the serializer — even one that
always fails — and still returns `Ok(false)`, whereas the same serializer
under a live connection makes `set` propagate the serialization error. -/
theorem disconnected_set_skips_serialization {α : Type} (now ttl : Nat)
    (k e : String) (d : CachedResponse α) :
    cmSet (fun _ => Except.error e) none now ttl k d = (Except.ok false, none) ∧
    ∀ c : Conn,
      (cmSet (fun _ => Except.error e) (some c) now ttl k d).1 = Except.error e :=
  ⟨rfl, fun _ => rfl⟩

/-- C2: with a connection whose commands succeed, after `set(k, E)` at time
`now` the call `get(k)` at any time before `now + ttl` returns `Ok(Some(E))`
(under the `serde` round-trip law for the envelope), and the `set` itself
returned `Ok(true)`. -/
theorem set_then_get_roundtrip {α : Type}
    (ser : CachedResponse α → Except String String)
    (deser : String → Option (CachedResponse α))
    (st : Store) (k : String) (E : CachedResponse α) (s : String)
    (ttl now now2 : Nat)
    (hser : ser E = Except.ok s) (hdeser : deser s = some E)
    (httl : now2 < now + ttl) :
    (cmSet ser (some ⟨st, []⟩) now ttl k E).1 = Except.ok true ∧
    (cmGet deser (cmSet ser (some ⟨st, []⟩) now ttl k E).2 now2 k).1 =
      Except.ok (some E) := by
  constructor
  · simp [cmSet, cmdSetEx, popFail, hser]
  · simp [cmSet, cmdSetEx, popFail, hser, cmGet, cmdGet,
      storeGet_storeSet_self, httl, hdeser]

/-- Witness for C2: a concrete store, key and envelope round-trip. -/
theorem set_then_get_roundtrip_witness :
    (cmSet (fun _ : CachedResponse Unit => Except.ok "sss") (some ⟨[], []⟩)
        0 10 "kk" ⟨(), 5, "kk"⟩).1 = Except.ok true ∧
    (cmGet (fun _ => some (⟨(), 5, "kk"⟩ : CachedResponse Unit))
        (cmSet (fun _ : CachedResponse Unit => Except.ok "sss") (some ⟨[], []⟩)
          0 10 "kk" ⟨(), 5, "kk"⟩).2 3 "kk").1 = Except.ok (some ⟨(), 5, "kk"⟩) :=
  set_then_get_roundtrip (fun _ => Except.ok "sss")
    (fun _ => some ⟨(), 5, "kk"⟩) [] "kk" ⟨(), 5, "kk"⟩ "sss" 10 0 3
    rfl rfl (by decide)

/-- C3: when the fetch succeeds but the fetched text fails to deserialize,
`get` deletes the key as a side effect and returns `Ok(None)`; the key is
gone from the store afterwards. -/
theorem get_corruption_selfheal {α : Type}
    (deser : String → Option (CachedResponse α))
    (st : Store) (now : Nat) (k s : String)
    (hfetch : storeGet st now k = some s) (hbad : deser s = none) :
    (cmGet deser (some ⟨st, []⟩) now k).1 = Except.ok none ∧
    ∀ c2, (cmGet deser (some ⟨st, []⟩) now k).2 = some c2 →
      storeGet c2.store now k = none := by
  constructor
  · simp [cmGet, cmdGet, popFail, hfetch, hbad, cmdDel]
  · intro c2 h2
    simp [cmGet, cmdGet, popFail, hfetch, hbad, cmdDel] at h2
    rw [← h2]
    exact storeGet_storeKill_self st now k

/-- Witness for C3: a store holding unparseable text at `"k"` self-heals. -/
theorem get_corruption_selfheal_witness :
    (cmGet (fun _ => (none : Option (CachedResponse Unit)))
        (some ⟨[("k", "junk", 10)], []⟩) 0 "k").1 = Except.ok none ∧
    ∀ c2, (cmGet (fun _ => (none : Option (CachedResponse Unit)))
        (some ⟨[("k", "junk", 10)], []⟩) 0 "k").2 = some c2 →
      storeGet c2.store 0 "k" = none :=
  get_corruption_selfheal (fun _ => none) [("k", "junk", 10)] 0 "k" "junk"
    (by decide) rfl

/-- C6: with a connection, `set` propagates a serialization error as a hard
failure; a failed store write yields `Ok(false)`; a successful write yields
`Ok(true)` and updates the store. -/
theorem set_error_policy {α : Type}
    (ser : CachedResponse α → Except String String) (c : Conn)
    (now ttl : Nat) (k : String) (d : CachedResponse α) :
    (∀ e, ser d = Except.error e →
      cmSet ser (some c) now ttl k d = (Except.error e, some c)) ∧
    (∀ s, ser d = Except.ok s → (popFail c).1 = true →
      cmSet ser (some c) now ttl k d = (Except.ok false, some (popFail c).2)) ∧
    (∀ s, ser d = Except.ok s → (popFail c).1 = false →
      cmSet ser (some c) now ttl k d =
        (Except.ok true, some ⟨storeSet c.store now k s ttl, c.failures.tail⟩)) := by
  refine ⟨?_, ?_, ?_⟩
  · intro e he
    simp [cmSet, he]
  · intro s hs hf
    simp [cmSet, hs, cmdSetEx, popFail] at hf ⊢
    simp [hf]
  · intro s hs hf
    simp [cmSet, hs, cmdSetEx, popFail] at hf ⊢
    simp [hf]

/-- Witness for C6: the three `set` outcomes on concrete inputs. -/
theorem set_error_policy_witness :
    cmSet (fun _ : CachedResponse Unit => Except.error "bad") (some ⟨[], []⟩)
        0 7 "k" ⟨(), 0, "k"⟩ = (Except.error "bad", some ⟨[], []⟩) ∧
    cmSet (fun _ : CachedResponse Unit => Except.ok "v") (some ⟨[], [true]⟩)
        0 7 "k" ⟨(), 0, "k"⟩ = (Except.ok false, some ⟨[], []⟩) ∧
    cmSet (fun _ : CachedResponse Unit => Except.ok "v") (some ⟨[], []⟩)
        0 7 "k" ⟨(), 0, "k"⟩ =
      (Except.ok true, some ⟨storeSet [] 0 "k" "v" 7, []⟩) :=
  ⟨(set_error_policy (fun _ => Except.error "bad") ⟨[], []⟩ 0 7 "k" ⟨(), 0, "k"⟩).1
      "bad" rfl,
   (set_error_policy (fun _ => Except.ok "v") ⟨[], [true]⟩ 0 7 "k" ⟨(), 0, "k"⟩).2.1
      "v" rfl rfl,
   (set_error_policy (fun _ => Except.ok "v") ⟨[], []⟩ 0 7 "k" ⟨(), 0, "k"⟩).2.2
      "v" rfl rfl⟩

theorem cmCacheResponse_fst {ρ α : Type}
    (serReq : ρ → Except String String)
    (serEnv : CachedResponse α → Except String String)
    (m : Option Conn) (now ttl : Nat) (pfx : String) (req : ρ) (v : α)
    (s s2 : String) (hreq : serReq req = Except.ok s)
    (henv : serEnv ⟨v, now, pfx ++ ":" ++ hexEncode (sha256 (strBytes s))⟩ =
      Except.ok s2) :
    (cmCacheResponse serReq serEnv m now ttl pfx req v).1 =
      Except.ok ⟨v, now, pfx ++ ":" ++ hexEncode (sha256 (strBytes s))⟩ := by
  cases m with
  | none =>
    simp [cmCacheResponse, generate_cache_key, hreq, cmSet, CachedResponse.new]
  | some c =>
    rcases c with ⟨cst, cfs⟩
    cases cfs with
    | nil =>
      simp [cmCacheResponse, generate_cache_key, hreq, CachedResponse.new,
        cmSet, henv, cmdSetEx, popFail]
    | cons b rest =>
      cases b <;>
        simp [cmCacheResponse, generate_cache_key, hreq, CachedResponse.new,
          cmSet, henv, cmdSetEx, popFail]

/-- C7: whenever both serializations succeed, `cache_response` returns
`Ok` with the constructed envelope for every connection state — no
connection, failing write, or successful write — so the caller cannot tell
a successful write from a silent failure from the returned value. -/
theorem cache_response_unconditional {ρ α : Type}
    (serReq : ρ → Except String String)
    (serEnv : CachedResponse α → Except String String)
    (m : Option Conn) (now ttl : Nat) (pfx : String) (req : ρ) (v : α)
    (s s2 : String) (hreq : serReq req = Except.ok s)
    (henv : serEnv ⟨v, now, pfx ++ ":" ++ hexEncode (sha256 (strBytes s))⟩ =
      Except.ok s2) :
    (cmCacheResponse serReq serEnv m now ttl pfx req v).1 =
      Except.ok ⟨v, now, pfx ++ ":" ++ hexEncode (sha256 (strBytes s))⟩ :=
  cmCacheResponse_fst serReq serEnv m now ttl pfx req v s s2 hreq henv

/-- Witness for C7: with a connection scheduled to fail the write, the
envelope is still returned as if nothing went wrong. -/
theorem cache_response_unconditional_witness :
    (cmCacheResponse serdeToString
        (fun _ : CachedResponse Unit => Except.ok "env")
        (some ⟨[], [true]⟩) 0 7 "p" Json.null ()).1 =
      Except.ok ⟨(), 0, "p" ++ ":" ++ hexEncode (sha256 (strBytes "null"))⟩ :=
  cache_response_unconditional serdeToString (fun _ => Except.ok "env")
    (some ⟨[], [true]⟩) 0 7 "p" Json.null () "null" "env" rfl rfl

/-- C8: an envelope written by `cache_response` is stored under exactly the
key in its own `cache_key` field: the returned envelope carries the derived
key, and the store afterwards maps that key to the envelope's
serialization. -/
theorem cache_response_key_invariant {ρ α : Type}
    (serReq : ρ → Except String String)
    (serEnv : CachedResponse α → Except String String)
    (st : Store) (now ttl : Nat) (pfx : String) (req : ρ) (v : α)
    (s s2 : String) (hreq : serReq req = Except.ok s)
    (henv : serEnv ⟨v, now, pfx ++ ":" ++ hexEncode (sha256 (strBytes s))⟩ =
      Except.ok s2)
    (httl : 0 < ttl) :
    (cmCacheResponse serReq serEnv (some ⟨st, []⟩) now ttl pfx req v).1 =
      Except.ok ⟨v, now, pfx ++ ":" ++ hexEncode (sha256 (strBytes s))⟩ ∧
    ∀ c2, (cmCacheResponse serReq serEnv (some ⟨st, []⟩) now ttl pfx req v).2 =
        some c2 →
      storeGet c2.store now (pfx ++ ":" ++ hexEncode (sha256 (strBytes s))) =
        some s2 := by
  constructor
  · exact cmCacheResponse_fst serReq serEnv (some ⟨st, []⟩) now ttl
      pfx req v s s2 hreq henv
  · intro c2 h2
    simp [cmCacheResponse, generate_cache_key, hreq, CachedResponse.new,
      cmSet, henv, cmdSetEx, popFail] at h2
    rw [← h2]
    simp [storeGet_storeSet_self]
    omega

/-- Witness for C8: a concrete `cache_response` stores its envelope under
the envelope's own cache key. -/
theorem cache_response_key_invariant_witness :
    (cmCacheResponse serdeToString
        (fun _ : CachedResponse Unit => Except.ok "env")
        (some ⟨[], []⟩) 0 7 "p" Json.null ()).1 =
      Except.ok ⟨(), 0, "p" ++ ":" ++ hexEncode (sha256 (strBytes "null"))⟩ ∧
    ∀ c2, (cmCacheResponse serdeToString
        (fun _ : CachedResponse Unit => Except.ok "env")
        (some ⟨[], []⟩) 0 7 "p" Json.null ()).2 = some c2 →
      storeGet c2.store 0 ("p" ++ ":" ++ hexEncode (sha256 (strBytes "null"))) =
        some "env" :=
  cache_response_key_invariant serdeToString (fun _ => Except.ok "env")
    [] 0 7 "p" Json.null () "null" "env" rfl rfl (by decide)

theorem storeKeys_sublist (st : Store) (now : Nat) (pat : String) :
    (storeKeys st now pat).Sublist (st.map (fun e => e.1)) := by
  induction st with
  | nil => simp [storeKeys]
  | cons e st ih =>
    by_cases hc : now < e.2.2 ∧ globMatch pat.data e.1.data = true
    · simpa [storeKeys, hc] using List.Sublist.cons₂ e.1 ih
    · simp only [storeKeys, hc, if_false, List.map_cons]
      exact List.Sublist.cons e.1 ih

theorem storeKeys_isSome (st : Store) (now : Nat) (pat k : String)
    (hnd : (st.map (fun e => e.1)).Nodup) (hk : k ∈ storeKeys st now pat) :
    (storeGet st now k).isSome = true := by
  induction st with
  | nil => simp [storeKeys] at hk
  | cons e st ih =>
    simp only [List.map_cons, List.nodup_cons] at hnd
    by_cases hc : now < e.2.2 ∧ globMatch pat.data e.1.data = true
    · simp only [storeKeys, hc, and_self, if_true, List.mem_cons] at hk
      rcases hk with h | h
      · simp [storeGet, h, hc.1]
      · have hmem : k ∈ st.map (fun e => e.1) :=
          (storeKeys_sublist st now pat).subset h
        have hne : e.1 ≠ k := by
          intro hc2
          exact hnd.1 (by rw [hc2]; exact hmem)
        simpa [storeGet, hne] using ih hnd.2 h
    · simp only [storeKeys, hc, if_false] at hk
      have hmem : k ∈ st.map (fun e => e.1) :=
        (storeKeys_sublist st now pat).subset hk
      have hne : e.1 ≠ k := by
        intro hc2
        exact hnd.1 (by rw [hc2]; exact hmem)
      simpa [storeGet, hne] using ih hnd.2 hk

theorem delLoop_none_mono (now : Nat) (ks : List String) (c : Conn) (acc : Nat)
    (k : String) (h : storeGet c.store now k = none) :
    storeGet (delLoop now c ks acc).2.store now k = none := by
  induction ks generalizing c acc with
  | nil => exact h
  | cons k0 ks ih =>
    cases hf : c.failures.headD false with
    | true =>
      simp only [delLoop, cmdDel, popFail, hf, if_true]
      exact ih ⟨c.store, c.failures.tail⟩ acc h
    | false =>
      simp only [delLoop, cmdDel, popFail, hf, Bool.false_eq_true, if_false]
      exact ih ⟨storeKill c.store k0, c.failures.tail⟩ _
        (storeGet_none_storeKill c.store now k k0 h)

theorem delLoop_clears (now : Nat) (ks : List String) (c : Conn) (acc : Nat)
    (hok : ∀ b ∈ c.failures, b = false) :
    ∀ k ∈ ks, storeGet (delLoop now c ks acc).2.store now k = none := by
  induction ks generalizing c acc with
  | nil => simp
  | cons k0 ks ih =>
    have hf : c.failures.headD false = false := by
      cases hcf : c.failures with
      | nil => rfl
      | cons b bs => exact hok b (by rw [hcf]; exact List.mem_cons_self b bs)
    have hok2 : ∀ b ∈ c.failures.tail, b = false := fun b hb =>
      hok b (List.mem_of_mem_tail hb)
    intro k hk
    simp only [delLoop, cmdDel, popFail, hf, Bool.false_eq_true, if_false]
    rcases List.mem_cons.mp hk with h | h
    · rw [h]
      exact delLoop_none_mono now ks ⟨storeKill c.store k0, c.failures.tail⟩ _
        k0 (storeGet_storeKill_self c.store now k0)
    · exact ih ⟨storeKill c.store k0, c.failures.tail⟩ _ hok2 k h

theorem delLoop_count (now : Nat) (ks : List String) (c : Conn) (acc : Nat)
    (hnd : ks.Nodup) (hlive : ∀ k ∈ ks, (storeGet c.store now k).isSome = true) :
    (delLoop now c ks acc).1 = acc + (takeD ks.length c.failures).count false := by
  induction ks generalizing c acc with
  | nil => simp [delLoop, takeD]
  | cons k0 ks ih =>
    simp only [List.nodup_cons] at hnd
    obtain ⟨cst, cfs⟩ := c
    have hk0 : (storeGet cst now k0).isSome = true :=
      hlive k0 (List.mem_cons_self k0 ks)
    have hlive2 : ∀ k ∈ ks, (storeGet (storeKill cst k0) now k).isSome = true := by
      intro k hk
      have hne : k ≠ k0 := by
        intro hc2
        exact hnd.1 (by rw [← hc2]; exact hk)
      rw [storeGet_storeKill_ne cst now k k0 hne]
      exact hlive k (List.mem_cons_of_mem k0 hk)
    cases cfs with
    | nil =>
      rw [show delLoop now ⟨cst, []⟩ (k0 :: ks) acc =
          delLoop now ⟨storeKill cst k0, []⟩ ks (acc + 1) from by
        simp [delLoop, cmdDel, popFail, hk0]]
      rw [ih ⟨storeKill cst k0, []⟩ (acc + 1) hnd.2 hlive2]
      simp [takeD, List.count_cons]
      omega
    | cons b bs =>
      cases b with
      | true =>
        rw [show delLoop now ⟨cst, true :: bs⟩ (k0 :: ks) acc =
            delLoop now ⟨cst, bs⟩ ks acc from by
          simp [delLoop, cmdDel, popFail]]
        rw [ih ⟨cst, bs⟩ acc hnd.2
          (fun k hk => hlive k (List.mem_cons_of_mem k0 hk))]
        simp [takeD, List.count_cons]
      | false =>
        rw [show delLoop now ⟨cst, false :: bs⟩ (k0 :: ks) acc =
            delLoop now ⟨storeKill cst k0, bs⟩ ks (acc + 1) from by
          simp [delLoop, cmdDel, popFail, hk0]]
        rw [ih ⟨storeKill cst k0, bs⟩ (acc + 1) hnd.2 hlive2]
        simp [takeD, List.count_cons]
        omega

/-- C9: `clear_pattern` with no connection returns `Ok(0)`; with a
connection whose `KEYS` listing succeeds it deletes each listed key
individually and returns `Ok` of the number of successful deletions — one
per listed key whose scheduled `DEL` did not fail, so a partial count with
no rollback when some deletions fail — and when no deletion fails every key
matching the pattern is gone from the store afterwards. -/
theorem clear_pattern_spec (st : Store) (flags : List Bool) (now : Nat)
    (pat : String) (hnd : (st.map (fun e => e.1)).Nodup) :
    cmClearPattern none now pat = (Except.ok 0, none) ∧
    (cmClearPattern (some ⟨st, false :: flags⟩) now pat).1 =
      Except.ok ((takeD (storeKeys st now pat).length flags).count false) ∧
    ((∀ b ∈ flags, b = false) → ∀ k ∈ storeKeys st now pat,
      ∀ c2, (cmClearPattern (some ⟨st, false :: flags⟩) now pat).2 = some c2 →
        storeGet c2.store now k = none) := by
  have hkeys : cmdKeys ⟨st, false :: flags⟩ now pat =
      (some (storeKeys st now pat), ⟨st, flags⟩) := by
    simp [cmdKeys, popFail]
  refine ⟨rfl, ?_, ?_⟩
  · simp only [cmClearPattern, hkeys, Option.getD_some]
    rw [delLoop_count now (storeKeys st now pat) ⟨st, flags⟩ 0
      (hnd.sublist (storeKeys_sublist st now pat))
      (fun k hk => storeKeys_isSome st now pat k hnd hk)]
    simp
  · intro hok k hk c2 h2
    simp only [cmClearPattern, hkeys, Option.getD_some] at h2
    injection h2 with h3
    rw [← h3]
    exact delLoop_clears now (storeKeys st now pat) ⟨st, flags⟩ 0 hok k hk

/-- Witness for C9: after storing `bulk_0 .. bulk_9` (plus one unrelated
key), clearing `bulk_*` returns exactly 10 and removes every matching key;
with no connection the count is 0. -/
theorem clear_pattern_spec_witness :
    cmClearPattern none 0 "bulk_*" = (Except.ok 0, none) ∧
    (cmClearPattern (some ⟨bulkStore, [false]⟩) 0 "bulk_*").1 = Except.ok 10 ∧
    ((∀ b ∈ ([] : List Bool), b = false) → ∀ k ∈ storeKeys bulkStore 0 "bulk_*",
      ∀ c2, (cmClearPattern (some ⟨bulkStore, [false]⟩) 0 "bulk_*").2 = some c2 →
        storeGet c2.store 0 k = none) := by
  have h := clear_pattern_spec bulkStore [] 0 "bulk_*" (by decide)
  refine ⟨h.1, ?_, h.2.2⟩
  rw [h.2.1]
  decide

end SharedRedis
